import Mathlib

/-!
Verification of the tieuthuong-image-resizer repository.

Strings from the Rust source are modelled as lists of characters
(`Str := List Char`), machine integers (`u32`) as `Nat`, fallible Rust
functions as `Except`/`Option`, and the external collaborators (the `url`
crate, the `image` crate, the S3 SDK) as explicit models documented at
their definitions.
-/

abbrev Str := List Char

/-- Split a list at the first occurrence of `c`: returns the part before it
and, when `c` occurs, the part after it.  This models Rust's
`str::splitn(2, c)` and the scheme/authority/path splitting that the `url`
crate performs on the locator shapes of interest. -/
def splitAtFirst (c : Char) : Str → Str × Option Str
  | [] => ([], none)
  | x :: xs =>
    if x = c then ([], some xs)
    else
      let r := splitAtFirst c xs
      (x :: r.1, r.2)

/-- The characters of `l` strictly before the first occurrence of `c`
(all of `l` when `c` is absent).  Models `str::split(c).next()`. -/
def takeUntilChar (c : Char) (l : Str) : Str :=
  (splitAtFirst c l).1

/-- Remove every leading occurrence of `c`.  Models
`str::trim_start_matches(c)`. -/
def dropLeadingChar (c : Char) : Str → Str
  | [] => []
  | x :: xs => if x = c then dropLeadingChar c xs else x :: xs

/-- `isPreOf p l` holds when `p` is a prefix of `l`.  Models
`str::starts_with`. -/
def isPreOf : Str → Str → Bool
  | [], _ => true
  | _ :: _, [] => false
  | p :: ps, x :: xs => p = x && isPreOf ps xs

/-- `containsSeq p l` holds when `p` occurs contiguously inside `l`.
Models `str::contains` for a pattern string. -/
def containsSeq (p : Str) : Str → Bool
  | [] => isPreOf p []
  | x :: xs => isPreOf p (x :: xs) || containsSeq p xs

/-- Split a list at the last occurrence of `c`, returning the parts before
and after it when it occurs. -/
def splitAtLastChar (c : Char) (l : Str) : Option (Str × Str) :=
  match splitAtFirst c l.reverse with
  | (_, none) => none
  | (a, some b) => some (b.reverse, a.reverse)

/-- Lowercase letter, digit, or hyphen: the host alphabet the round-trip
theorems restrict to (no `.`, `/`, `:`, `@` or percent-encoded
characters, and already lowercase, so the WHATWG host normalization is
the identity). -/
def hostSafeChar (c : Char) : Bool :=
  (97 ≤ c.toNat && c.toNat ≤ 122) || (48 ≤ c.toNat && c.toNat ≤ 57) || c = '-'

/-- Letter, digit, `-`, `_`, `.`, or `/`: the key alphabet the round-trip
theorems restrict to (characters the WHATWG path serialization leaves
untouched). -/
def keySafeChar (c : Char) : Bool :=
  (65 ≤ c.toNat && c.toNat ≤ 90) || (97 ≤ c.toNat && c.toNat ≤ 122) ||
    (48 ≤ c.toNat && c.toNat ≤ 57) || c = '-' || c = '_' || c = '.' || c = '/'

/-- No path segment of the key is `.` or `..` (WHATWG path normalization
would rewrite such segments, which the url-crate model does not model). -/
def noDotSegs (k : Str) : Bool :=
  !containsSeq "/./".data ('/' :: (k ++ "/".data)) &&
    !containsSeq "/../".data ('/' :: (k ++ "/".data))

/-- Decimal digit character for `n % 10`-style values.  Models the decimal
rendering Rust's `format!` performs on `u32`. -/
def digitChar (n : Nat) : Char :=
  match n with
  | 0 => '0' | 1 => '1' | 2 => '2' | 3 => '3' | 4 => '4'
  | 5 => '5' | 6 => '6' | 7 => '7' | 8 => '8' | _ => '9'

/-- Numeric value of a decimal digit character. -/
def digitVal (c : Char) : Nat := c.toNat - 48

def isDigitChar (c : Char) : Bool := 47 < c.toNat && c.toNat < 58

/-- Fuel-driven accumulator loop of the decimal renderer. -/
def natToDigitsAux : Nat → Nat → Str → Str
  | 0, _, acc => acc
  | fuel + 1, n, acc =>
    if n < 10 then digitChar n :: acc
    else natToDigitsAux fuel (n / 10) (digitChar (n % 10) :: acc)

/-- Decimal rendering of a natural number, most significant digit first.
Models `format!("{}", n)` on a `u32`. -/
def natToDigits (n : Nat) : Str := natToDigitsAux (n + 1) n []

/-- Value of a digit string read in base 10. -/
def digitsVal (l : Str) : Nat := l.foldl (fun a c => 10 * a + digitVal c) 0

/-! ## The error type

`error.rs` is not part of the sources under review; the `AppError`
constructors below are exactly those constructed by the code in
`handlers.rs`, `s3.rs` and `image_processor.rs`.  The spec's error
taxonomy maps onto them by trigger: `InvalidRequest` and `InvalidLocator`
are both represented by `InvalidS3Url` (distinguished only by message),
`DecodeError`/`EncodeError` by `ImageProcessingError`, and `StorageError`
by `S3Error`. -/

inductive AppError where
  | InvalidS3Url (msg : String)
  | ImageProcessingError (msg : String)
  | S3Error (msg : String)
deriving DecidableEq

/-! ## The url crate model -/

structure UrlParts where
  scheme : Str
  host : Str
  path : Str
deriving DecidableEq

def schemeChar (c : Char) : Bool :=
  c.isAlpha || c.isDigit || c = '+' || c = '-' || c = '.'

def validScheme (s : Str) : Bool :=
  match s with
  | [] => false
  | c :: rest => c.isAlpha && rest.all schemeChar

/-- Modelled from the `url` crate (WHATWG URL parsing) restricted to the
inputs the locator logic is exercised on: absolute URLs of the shape
`scheme://authority/path` whose components contain no characters that
require percent-encoding, no userinfo, port, query or fragment, and whose
scheme and host are already lowercase (the crate lowercases them; the
theorems below only feed it such strings).  Path normalization of `.`/`..`
segments is likewise not modelled and the theorems exclude such keys.
Returns `(scheme, host, path)`; `none` models a `Url::parse` error. -/
def urlParse (s : Str) : Option UrlParts :=
  match splitAtFirst ':' s with
  | (_, none) => none
  | (sch, some rest) =>
    if validScheme sch then
      match rest with
      | c1 :: c2 :: auth =>
        if c1 = '/' ∧ c2 = '/' then
          match splitAtFirst '/' auth with
          | (host, none) => some ⟨sch, host, []⟩
          | (host, some p) => some ⟨sch, host, '/' :: p⟩
        else none
      | _ => none
    else none

/-- Shallow embedding of `parse_s3_url` from `src/s3.rs`.  The `url` crate
is modelled by `urlParse`; in the model the host is always present once
parsing succeeds, so the `host_str` `None` branches of the source (which
also produce `InvalidS3Url` errors) do not appear. -/
def parse_s3_url (s3_url : Str) : Except AppError (Str × Str) :=
  match urlParse s3_url with
  | none => .error (.InvalidS3Url "Invalid URL format")
  | some u =>
    let res : Except AppError (Str × Str) :=
      if u.scheme = "s3".data then
        let bucket := u.host
        let key := dropLeadingChar '/' u.path
        .ok (bucket, key)
      else if u.scheme = "https".data ∨ u.scheme = "http".data then
        let host := u.host
        if isPreOf "s3.".data host || isPreOf "s3-".data host then
          let path := dropLeadingChar '/' u.path
          match splitAtFirst '/' path with
          | (_, none) => .error (.InvalidS3Url "Invalid path-style S3 URL format")
          | (b, some k) => .ok (b, k)
        else if containsSeq ".s3.".data host || containsSeq ".s3-".data host then
          let bucket := takeUntilChar '.' host
          let key := dropLeadingChar '/' u.path
          .ok (bucket, key)
        else
          .error (.InvalidS3Url "URL does not appear to be a valid S3 URL")
      else
        .error (.InvalidS3Url "URL must use s3://, https://, or http:// scheme")
    match res with
    | .ok (b, k) => if k = [] then .error (.InvalidS3Url "Missing object key") else .ok (b, k)
    | .error e => .error e

/-! ## Path components of a key

Models `std::path::Path`'s `file_name`/`extension`/`file_stem`/`parent`
for storage keys: slash-separated components, none equal to `.` or `..`,
no leading or doubled slashes (the only keys the resolver is specified
on). -/

/-- The final path component: everything after the last `/`. -/
def keyFileName (k : Str) : Str :=
  match splitAtLastChar '/' k with
  | some (_, a) => a
  | none => k

/-- The parent path rendered by `Path::parent().to_str()`: everything
before the last `/`, or the empty string when there is no `/`. -/
def keyParent (k : Str) : Str :=
  match splitAtLastChar '/' k with
  | some (b, _) => b
  | none => []

/-- `Path::extension`: the part of the file name after its last `.`, when
that dot is not the leading character. -/
def keyExtension (k : Str) : Option Str :=
  match splitAtLastChar '.' (keyFileName k) with
  | some ([], _) => none
  | some (_, a) => some a
  | none => none

/-- `Path::file_stem`: the file name up to its last `.` (the whole file
name when there is no usable extension), `none` for an empty file name. -/
def keyFileStem (k : Str) : Option Str :=
  match keyFileName k with
  | [] => none
  | f =>
    match splitAtLastChar '.' f with
    | some ([], _) => some f
    | some (b, _) => some b
    | none => some f

/-- Shallow embedding of `generate_resized_key` from `src/s3.rs`. -/
def generate_resized_key (original_key : Str) (width height : Nat) : Str :=
  let extension := (keyExtension original_key).getD "jpg".data
  let stem := (keyFileStem original_key).getD "image".data
  let parent := keyParent original_key
  let filename :=
    stem ++ '_' :: natToDigits width ++ 'x' :: natToDigits height ++ '.' :: extension
  if parent = [] then filename else parent ++ '/' :: filename

deriving instance DecidableEq for Except

/-! ## The image crate model

Image buffers are opaque byte sequences (`Bytes`); a decoded image is its
pixel dimensions together with a pixel grid.  The external `image` crate
is modelled by the `ImageLib` interface: a decoder, the Lanczos3 resampler
(whose pixel values none of the verified properties depend on — only the
dimension bookkeeping, which is modelled exactly), and the JPEG encoder.
The crate's `f64` ratio arithmetic in `resize_dimensions` and
`resize_cover` is modelled by exact integer arithmetic: `x.round()` on a
nonnegative quotient `p/q` is `(2*p + q) / (2*q)` and an `as u32` cast is
floor division. -/

abbrev Bytes := List Nat

structure Img where
  width : Nat
  height : Nat
  pix : Nat → Nat → Nat

structure ImageLib where
  load_from_memory : Bytes → Option Img
  sample : Img → Nat → Nat → Nat → Nat → Nat
  write_jpeg : Img → Except String Bytes

/-- Round-half-away-from-zero of the nonnegative quotient `p / q`,
modelling `(p as f64 / q as f64).round()`. -/
def roundDiv (p q : Nat) : Nat := (2 * p + q) / (2 * q)

/-- The `image` crate's `resize_dimensions` with `fill = false`: the
largest `w : h`-aspect dimensions fitting inside `nw × nh`, each rounded
and clamped below by 1.  (The crate's `u32::MAX` overflow branches are
unreachable for `fill = false` and are not modelled.) -/
def resizeDimensions (w h nw nh : Nat) : Nat × Nat :=
  if nw * h ≤ nh * w then
    (max (roundDiv (w * nw) w) 1, max (roundDiv (h * nw) w) 1)
  else
    (max (roundDiv (w * nh) h) 1, max (roundDiv (h * nh) h) 1)

/-- `DynamicImage::resize_exact`: resample to exactly `nw × nh`. -/
def imgResizeExact (L : ImageLib) (img : Img) (nw nh : Nat) : Img :=
  ⟨nw, nh, fun x y => L.sample img nw nh x y⟩

/-- `DynamicImage::resize`: aspect-preserving fit inside `nw × nh` via
`resizeDimensions`, then resampling. -/
def imgResize (L : ImageLib) (img : Img) (nw nh : Nat) : Img :=
  let d := resizeDimensions img.width img.height nw nh
  imgResizeExact L img d.1 d.2

/-- `imageops::crop_imm(..).to_image()`: the `w × h` window at `(x, y)`,
clipped to the image bounds. -/
def crop_imm (img : Img) (x y w h : Nat) : Img :=
  ⟨min w (img.width - x), min h (img.height - y), fun i j => img.pix (i + x) (j + y)⟩

inductive ObjectMode where
  | Cover
  | Contain
  | Fill
  | ScaleDown
deriving DecidableEq

namespace ImageProcessor

/-- One halving step of the bit-length computation, fuelled so that it is
structural recursion the kernel can evaluate. -/
def bitLenAux : Nat → Nat → Nat
  | 0, _ => 0
  | fuel + 1, n => if n = 0 then 0 else bitLenAux fuel (n / 2) + 1

/-- Number of binary digits of `n` (0 for 0), exact for `n < 2^128` —
far beyond every quantity the `f64` model computes from `u32` inputs. -/
def bitLen (n : Nat) : Nat := bitLenAux 128 n

/-- Search for the shift `s` that puts `⌊n · 2^s / d⌋` into the binary64
mantissa range `[2^52, 2^53)`; the bit-length estimate it starts from is
off by at most two, so the fuel is never exhausted on positive inputs. -/
def f64FindShift : Nat → Nat → Nat → Int → Int
  | 0, _, _, s => s
  | fuel + 1, n, d, s =>
    let q := (n * 2 ^ s.toNat) / (d * 2 ^ (-s).toNat)
    if q < 2 ^ 52 then f64FindShift fuel n d (s + 1)
    else if 2 ^ 53 ≤ q then f64FindShift fuel n d (s - 1)
    else s

/-- The IEEE 754 binary64 value (round to nearest, ties to even) of the
positive rational `n / d`, returned as an exact fraction of naturals.
This is the result of an `f64` division or multiplication whose exact
value is `n / d`, valid in the binary64 normal range — which covers
every ratio and product of `u32` dimensions the resize code computes.
A zero numerator or denominator maps to the zero fraction. -/
def roundF64Frac (n d : Nat) : Nat × Nat :=
  if n = 0 ∨ d = 0 then (0, 1)
  else
    let s := f64FindShift 8 n d (52 - (bitLen n : Int) + (bitLen d : Int))
    let num := n * 2 ^ s.toNat
    let den := d * 2 ^ (-s).toNat
    let q := num / den
    let r := num % den
    let m :=
      if den < 2 * r then q + 1
      else if 2 * r < den then q
      else if q % 2 = 0 then q else q + 1
    (m * 2 ^ (-s).toNat, 2 ^ s.toNat)

/-- Rust's saturating `as u32` cast of a nonnegative `f64` value given as
the fraction `num / den`: truncate toward zero, clamp at `u32::MAX`. -/
def f64toU32 (num den : Nat) : Nat := min (num / den) (2 ^ 32 - 1)

/-- Shallow embedding of `ImageProcessor::resize_cover` from
`src/image_processor.rs`.  The `f64` aspect arithmetic is modelled
bit-exactly: `img_aspect` and `target_aspect` are the binary64 roundings
of the dimension ratios, the branch compares those rounded values
(exactly, by cross-multiplying their fraction representations), and the
scale factors are the binary64 roundings of `height * img_aspect`
resp. `width / img_aspect`, truncated by the saturating `as u32` cast —
reproducing the truncation undershoot of the real code (a 9×7 source at
a 9×7 target scales to 9×6).  A zero source dimension, where the real
code would produce an infinite or NaN aspect, is mapped to the zero
fraction and never reached from a decoded image.  The
`to_rgba8`/`ImageRgba8` conversions are dimension- and
content-preserving and modelled as the identity. -/
def resize_cover (L : ImageLib) (img : Img) (width height : Nat) : Img :=
  let ia := roundF64Frac img.width img.height
  let ta := roundF64Frac width height
  let sw := roundF64Frac (height * ia.1) ia.2
  let sh := roundF64Frac (width * ia.2) ia.1
  let sd :=
    if ta.1 * ia.2 < ia.1 * ta.2 then
      (f64toU32 sw.1 sw.2, height)
    else
      (width, f64toU32 sh.1 sh.2)
  let scaled := imgResizeExact L img sd.1 sd.2
  let x_offset := (sd.1 - width) / 2
  let y_offset := (sd.2 - height) / 2
  crop_imm scaled x_offset y_offset width height

/-- Shallow embedding of `ImageProcessor::resize_contain`. -/
def resize_contain (L : ImageLib) (img : Img) (width height : Nat) : Img :=
  imgResize L img width height

/-- Shallow embedding of `ImageProcessor::resize_fill`. -/
def resize_fill (L : ImageLib) (img : Img) (width height : Nat) : Img :=
  imgResizeExact L img width height

/-- Shallow embedding of `ImageProcessor::resize_scale_down`. -/
def resize_scale_down (L : ImageLib) (img : Img) (width height : Nat) : Img :=
  if img.width ≤ width ∧ img.height ≤ height then img
  else imgResize L img width height

/-- Shallow embedding of `ImageProcessor::resize`: decode, apply the
requested fitting policy, re-encode as JPEG.  The source interpolates the
underlying library error into its messages; the model keeps the fixed
message text. -/
def resize (L : ImageLib) (image_data : Bytes) (width height : Nat)
    (object_mode : ObjectMode) : Except AppError (Bytes × String) :=
  match L.load_from_memory image_data with
  | none => .error (.ImageProcessingError "Failed to decode image")
  | some img =>
    let resized :=
      match object_mode with
      | .Cover => resize_cover L img width height
      | .Contain => resize_contain L img width height
      | .Fill => resize_fill L img width height
      | .ScaleDown => resize_scale_down L img width height
    match L.write_jpeg resized with
    | .error _ => .error (.ImageProcessingError "Failed to encode image")
    | .ok buffer => .ok (buffer, "image/jpeg")

end ImageProcessor

/-- Modelled from the spec: a minimal concrete instance of the external
image codec, standing in for the `image` crate in closed counterexamples
and witnesses.  `load_from_memory` accepts a four-byte buffer led by the
PNG signature bytes `0x89 0x50`, reading the last two bytes as width and
height; `write_jpeg` emits a buffer led by the JPEG start-of-image marker
`0xFF 0xD8` — as every JPEG stream must be — followed by the
dimensions. -/
def toyLib : ImageLib where
  load_from_memory := fun b =>
    match b with
    | [137, 80, w, h] => some ⟨w, h, fun _ _ => 0⟩
    | _ => none
  sample := fun _ _ _ _ _ => 0
  write_jpeg := fun img => .ok [255, 216, img.width, img.height]

/-! ## The storage collaborator model

The S3 SDK is modelled by the `Backend` interface: the three raw
operations `head_object`, `get_object` (with its body already collected)
and `put_object`, each of which may fail with an opaque error string.
`resize_image` additionally returns the trace of collaborator calls it
issued, in order, together with a `processImage` event marking the call
into `ImageProcessor::resize`. -/

structure Backend where
  headObject : Str → Str → Except String Unit
  getObject : Str → Str → Except String Bytes
  putObject : Str → Str → Bytes → String → Except String Unit

/-- Shallow embedding of `S3Client::check_object_exists` from
`src/s3.rs`: a `head_object` failure is reported as `false`. -/
def check_object_exists (be : Backend) (bucket key : Str) : Bool :=
  match be.headObject bucket key with
  | .ok _ => true
  | .error _ => false

/-- Shallow embedding of `S3Client::download_image` from `src/s3.rs`. -/
def download_image (be : Backend) (s3_url : Str) : Except AppError Bytes :=
  match parse_s3_url s3_url with
  | .error e => .error e
  | .ok (bucket, key) =>
    match be.getObject bucket key with
    | .ok d => .ok d
    | .error e => .error (.S3Error ("Failed to download from S3: " ++ e))

/-- `format!("s3://{}/{}", bucket, key)`. -/
def s3UrlOf (bucket key : Str) : Str := "s3://".data ++ bucket ++ '/' :: key

/-- Shallow embedding of `S3Client::upload_image` from `src/s3.rs`. -/
def upload_image (be : Backend) (bucket key : Str) (data : Bytes)
    (content_type : String) : Except AppError Str :=
  match be.putObject bucket key data content_type with
  | .ok _ => .ok (s3UrlOf bucket key)
  | .error e => .error (.S3Error ("Failed to upload to S3: " ++ e))

structure ResizeRequest where
  s3_url : Str
  width : Nat
  height : Nat
  object_mode : ObjectMode
deriving DecidableEq

structure ResizeResponse where
  original_url : Str
  resized_url : Str
  width : Nat
  height : Nat
  object_mode : ObjectMode
deriving DecidableEq

/-- A storage state with no objects: every raw operation fails except
`put_object`; used to exercise the fetch-resize-store path. -/
def freshBackend : Backend where
  headObject := fun _ _ => .error "NotFound"
  getObject := fun _ _ => .ok [137, 80, 1, 1]
  putObject := fun _ _ _ _ => .ok ()

/-- A storage state in which every object exists; used to exercise the
cache-hit path. -/
def cachedBackend : Backend where
  headObject := fun _ _ => .ok ()
  getObject := fun _ _ => .error "unused"
  putObject := fun _ _ _ _ => .error "unused"

/-- One collaborator call made while handling a request. -/
inductive TraceEv where
  | headObject (bucket key : Str)
  | getObject (bucket key : Str)
  | processImage
  | putObject (bucket key : Str)
deriving DecidableEq

/-- Shallow embedding of the `resize_image` handler from
`src/handlers.rs`, instrumented with the ordered trace of collaborator
calls.  `download_image` re-parses the request URL exactly as the source
does; its parse cannot fail here because the handler already parsed the
same string. -/
def resize_image (L : ImageLib) (be : Backend) (payload : ResizeRequest) :
    Except AppError ResizeResponse × List TraceEv :=
  if payload.width = 0 ∨ payload.height = 0 then
    (.error (.InvalidS3Url "Width and height must be greater than 0"), [])
  else
    match parse_s3_url payload.s3_url with
    | .error e => (.error e, [])
    | .ok (bucket, original_key) =>
      let resized_key := generate_resized_key original_key payload.width payload.height
      if check_object_exists be bucket resized_key then
        (.ok { original_url := payload.s3_url,
               resized_url := s3UrlOf bucket resized_key,
               width := payload.width,
               height := payload.height,
               object_mode := payload.object_mode },
         [.headObject bucket resized_key])
      else
        match download_image be payload.s3_url with
        | .error e =>
          (.error e, [.headObject bucket resized_key, .getObject bucket original_key])
        | .ok image_data =>
          match ImageProcessor.resize L image_data payload.width payload.height
              payload.object_mode with
          | .error e =>
            (.error e,
             [.headObject bucket resized_key, .getObject bucket original_key, .processImage])
          | .ok (resized_data, content_type) =>
            match upload_image be bucket resized_key resized_data content_type with
            | .error e =>
              (.error e,
               [.headObject bucket resized_key, .getObject bucket original_key,
                .processImage, .putObject bucket resized_key])
            | .ok resized_url =>
              (.ok { original_url := payload.s3_url,
                     resized_url := resized_url,
                     width := payload.width,
                     height := payload.height,
                     object_mode := payload.object_mode },
               [.headObject bucket resized_key, .getObject bucket original_key,
                .processImage, .putObject bucket resized_key])

/-! ## Lemmas about decimal rendering -/

theorem natToDigitsAux_append (fuel : Nat) :
    ∀ (n : Nat) (acc : Str),
      natToDigitsAux fuel n acc = natToDigitsAux fuel n [] ++ acc := by
  induction fuel with
  | zero => intro n acc; rfl
  | succ fuel ih =>
    intro n acc
    by_cases h : n < 10
    · simp [natToDigitsAux, h]
    · simp only [natToDigitsAux, if_neg h]
      rw [ih (n / 10) (digitChar (n % 10) :: acc), ih (n / 10) [digitChar (n % 10)]]
      simp

theorem isDigitChar_digitChar (n : Nat) : isDigitChar (digitChar n) = true := by
  unfold digitChar
  split <;> decide

theorem digitVal_digitChar (n : Nat) (h : n < 10) : digitVal (digitChar n) = n := by
  interval_cases n <;> decide

theorem mem_natToDigitsAux_isDigit (fuel : Nat) :
    ∀ (n : Nat), n < fuel → ∀ c ∈ natToDigitsAux fuel n [], isDigitChar c = true := by
  induction fuel with
  | zero => intro n hn; omega
  | succ fuel ih =>
    intro n hn c hc
    by_cases h : n < 10
    · simp [natToDigitsAux, h] at hc
      subst hc
      exact isDigitChar_digitChar n
    · have hdiv : n / 10 < fuel := by
        have h1 : n / 10 < n := Nat.div_lt_self (by omega) (by omega)
        omega
      simp only [natToDigitsAux, if_neg h] at hc
      rw [natToDigitsAux_append fuel (n / 10) [digitChar (n % 10)]] at hc
      rcases List.mem_append.mp hc with h1 | h1
      · exact ih (n / 10) hdiv c h1
      · simp at h1
        subst h1
        exact isDigitChar_digitChar (n % 10)

theorem mem_natToDigits_isDigit (n : Nat) :
    ∀ c ∈ natToDigits n, isDigitChar c = true :=
  mem_natToDigitsAux_isDigit (n + 1) n (Nat.lt_succ_self n)

theorem digitsVal_append_singleton (l : Str) (c : Char) :
    digitsVal (l ++ [c]) = 10 * digitsVal l + digitVal c := by
  simp [digitsVal, List.foldl_append]

theorem digitsVal_natToDigitsAux (fuel : Nat) :
    ∀ (n : Nat), n < fuel → digitsVal (natToDigitsAux fuel n []) = n := by
  induction fuel with
  | zero => intro n hn; omega
  | succ fuel ih =>
    intro n hn
    by_cases h : n < 10
    · simp [natToDigitsAux, h, digitsVal, digitVal_digitChar n h]
    · have hdiv : n / 10 < fuel := by
        have h1 : n / 10 < n := Nat.div_lt_self (by omega) (by omega)
        omega
      simp only [natToDigitsAux, if_neg h]
      rw [natToDigitsAux_append fuel (n / 10) [digitChar (n % 10)],
        digitsVal_append_singleton, ih (n / 10) hdiv,
        digitVal_digitChar (n % 10) (Nat.mod_lt n (by omega))]
      omega

theorem digitsVal_natToDigits (n : Nat) : digitsVal (natToDigits n) = n :=
  digitsVal_natToDigitsAux (n + 1) n (Nat.lt_succ_self n)

theorem natToDigits_injective {n m : Nat} (h : natToDigits n = natToDigits m) :
    n = m := by
  have := digitsVal_natToDigits n
  rw [h, digitsVal_natToDigits m] at this
  omega

theorem not_mem_natToDigits_of_not_digit {c : Char} (hc : isDigitChar c = false)
    (n : Nat) : c ∉ natToDigits n := by
  intro hmem
  have := mem_natToDigits_isDigit n c hmem
  rw [hc] at this
  exact Bool.false_ne_true this

/-- Cancelling around the first occurrence of a distinguished element. -/
theorem eq_of_append_cons_eq {x : Char} :
    ∀ {a c b d : Str}, x ∉ a → x ∉ c → a ++ x :: b = c ++ x :: d →
      a = c ∧ b = d := by
  intro a
  induction a with
  | nil =>
    intro c b d _ hc heq
    cases c with
    | nil => simpa using heq
    | cons z cs =>
      simp at heq
      exact absurd heq.1.symm (by simp at hc; exact fun h => hc.1 h.symm)
  | cons y as ih =>
    intro c b d ha hc heq
    cases c with
    | nil =>
      simp at heq
      exact absurd heq.1 (by simp at ha; exact fun h => ha.1 h.symm)
    | cons z cs =>
      simp at heq ha hc
      obtain ⟨hyz, heq⟩ := heq
      obtain ⟨h1, h2⟩ := ih ha.2 hc.2 heq
      exact ⟨by rw [hyz, h1], h2⟩

/-- C4: `generate_resized_key` is a deterministic function of (original
key, width, height) — in this embedding it is a pure function, and the
stated sample values hold: `"photos/cat.png"` at 100×200 yields
`"photos/cat_100x200.png"` and `"cat"` at 50×50 yields `"cat_50x50.jpg"`
(extension defaulting to jpg); moreover for every fixed original key,
distinct (width, height) pairs produce distinct output keys. -/
theorem c4_generate_resized_key :
    generate_resized_key "photos/cat.png".data 100 200 = "photos/cat_100x200.png".data
    ∧ generate_resized_key "cat".data 50 50 = "cat_50x50.jpg".data
    ∧ ∀ (key : Str) (w h w' h' : Nat),
        generate_resized_key key w h = generate_resized_key key w' h' →
        w = w' ∧ h = h' := by
  refine ⟨by decide, by decide, ?_⟩
  intro key w h w' h' heq
  unfold generate_resized_key at heq
  have hxd : isDigitChar 'x' = false := by decide
  have hdd : isDigitChar '.' = false := by decide
  have hfn :
      natToDigits w ++ 'x' :: (natToDigits h ++ '.' :: (keyExtension key).getD "jpg".data)
        = natToDigits w' ++ 'x' :: (natToDigits h' ++ '.' :: (keyExtension key).getD "jpg".data) := by
    by_cases hP : keyParent key = []
    · rw [if_pos hP, if_pos hP] at heq
      simp only [List.append_assoc, List.cons_append] at heq
      have h1 := List.append_cancel_left heq
      exact (List.cons.inj h1).2
    · rw [if_neg hP, if_neg hP] at heq
      simp only [List.append_assoc, List.cons_append] at heq
      have h0 := List.append_cancel_left heq
      have h1 := (List.cons.inj h0).2
      have h2 := List.append_cancel_left h1
      exact (List.cons.inj h2).2
  obtain ⟨hw, hrest⟩ :=
    eq_of_append_cons_eq (not_mem_natToDigits_of_not_digit hxd w)
      (not_mem_natToDigits_of_not_digit hxd w') hfn
  obtain ⟨hh, _⟩ :=
    eq_of_append_cons_eq (not_mem_natToDigits_of_not_digit hdd h)
      (not_mem_natToDigits_of_not_digit hdd h') hrest
  exact ⟨natToDigits_injective hw, natToDigits_injective hh⟩

/-- Witness for C4 at the concrete key `"a/b.png"` and dimensions 7×9. -/
theorem c4_generate_resized_key_witness : 7 = 7 ∧ 9 = 9 :=
  c4_generate_resized_key.2.2 "a/b.png".data 7 9 7 9 rfl

/-! ## Lemmas about rounded division and resize dimensions -/

theorem roundDiv_mul_self {q : Nat} (hq : 1 ≤ q) (n : Nat) : roundDiv (q * n) q = n := by
  unfold roundDiv
  have h1 : 2 * (q * n) + q = q + 2 * q * n := by ring
  rw [h1, Nat.add_mul_div_left _ _ (by omega : 0 < 2 * q),
    Nat.div_eq_of_lt (by omega : q < 2 * q)]
  omega

theorem roundDiv_le {p q n : Nat} (hq : 1 ≤ q) (h : p ≤ n * q) : roundDiv p q ≤ n := by
  unfold roundDiv
  apply Nat.le_of_lt_succ
  rw [Nat.div_lt_iff_lt_mul (by omega : 0 < 2 * q)]
  have h2 : (n + 1) * (2 * q) = 2 * (n * q) + 2 * q := by ring
  rw [h2]
  omega

theorem roundDiv_bounds {p q : Nat} (hq : 1 ≤ q) :
    q * max (roundDiv p q) 1 ≤ p + q ∧ p ≤ q * max (roundDiv p q) 1 + q := by
  have hdm := Nat.div_add_mod (2 * p + q) (2 * q)
  have hlt : (2 * p + q) % (2 * q) < 2 * q := Nat.mod_lt _ (by omega)
  have hrd : (2 * p + q) / (2 * q) = roundDiv p q := rfl
  rw [hrd] at hdm
  rcases Nat.eq_zero_or_pos (roundDiv p q) with h0 | h0
  · rw [h0] at hdm
    simp only [h0]
    have hmax : max 0 1 = 1 := rfl
    rw [hmax]
    omega
  · rw [Nat.max_eq_left h0]
    have h3 : 2 * q * roundDiv p q = 2 * (q * roundDiv p q) := by ring
    rw [h3] at hdm
    generalize q * roundDiv p q = A at hdm ⊢
    omega

theorem resizeDimensions_le {w h nw nh : Nat}
    (hw : 1 ≤ w) (hh : 1 ≤ h) (hnw : 1 ≤ nw) (hnh : 1 ≤ nh) :
    (resizeDimensions w h nw nh).1 ≤ nw ∧ (resizeDimensions w h nw nh).2 ≤ nh := by
  unfold resizeDimensions
  by_cases hb : nw * h ≤ nh * w
  · rw [if_pos hb]
    constructor
    · simp only [roundDiv_mul_self hw nw, Nat.max_eq_left hnw, le_refl]
    · apply Nat.max_le.mpr
      refine ⟨roundDiv_le hw ?_, hnh⟩
      calc h * nw = nw * h := Nat.mul_comm h nw
        _ ≤ nh * w := hb
  · rw [if_neg hb]
    constructor
    · apply Nat.max_le.mpr
      refine ⟨roundDiv_le hh ?_, hnw⟩
      calc w * nh = nh * w := Nat.mul_comm w nh
        _ ≤ nw * h := Nat.le_of_lt (Nat.lt_of_not_le hb)
    · simp only [roundDiv_mul_self hh nh, Nat.max_eq_left hnh, le_refl]

theorem resizeDimensions_aspect {w h nw nh : Nat}
    (hw : 1 ≤ w) (hh : 1 ≤ h) (hnw : 1 ≤ nw) (hnh : 1 ≤ nh) :
    (resizeDimensions w h nw nh).1 * h ≤ (resizeDimensions w h nw nh).2 * w + (w + h) ∧
    (resizeDimensions w h nw nh).2 * w ≤ (resizeDimensions w h nw nh).1 * h + (w + h) := by
  unfold resizeDimensions
  by_cases hb : nw * h ≤ nh * w
  · rw [if_pos hb]
    simp only [roundDiv_mul_self hw nw, Nat.max_eq_left hnw]
    obtain ⟨hb1, hb2⟩ := roundDiv_bounds (p := h * nw) (q := w) hw
    set r := max (roundDiv (h * nw) w) 1 with hr
    have c1 : w * r = r * w := Nat.mul_comm _ _
    have c2 : h * nw = nw * h := Nat.mul_comm _ _
    rw [c1, c2] at hb1 hb2
    omega
  · rw [if_neg hb]
    simp only [roundDiv_mul_self hh nh, Nat.max_eq_left hnh]
    obtain ⟨hb1, hb2⟩ := roundDiv_bounds (p := w * nh) (q := h) hh
    set r := max (roundDiv (w * nh) h) 1 with hr
    have c1 : h * r = r * h := Nat.mul_comm _ _
    have c2 : w * nh = nh * w := Nat.mul_comm _ _
    rw [c1, c2] at hb1 hb2
    omega

theorem resizeDimensions_le_src {w h nw nh : Nat}
    (hw : 1 ≤ w) (hh : 1 ≤ h) (hnw : 1 ≤ nw) (hnh : 1 ≤ nh)
    (hex : ¬(w ≤ nw ∧ h ≤ nh)) :
    (resizeDimensions w h nw nh).1 ≤ w ∧ (resizeDimensions w h nw nh).2 ≤ h := by
  unfold resizeDimensions
  by_cases hb : nw * h ≤ nh * w
  · rw [if_pos hb]
    have hnww : nw ≤ w := by
      rcases Nat.lt_or_ge nw w with hlt | hge
      · omega
      · exfalso
        rcases not_and_or.mp hex with hc | hc
        · omega
        · have hnh' : nh < h := by omega
          have : nw * h ≤ nh * w := hb
          have h1 : nh * w < h * w := (Nat.mul_lt_mul_right (by omega)).mpr hnh'
          have h2 : w * h ≤ nw * h := Nat.mul_le_mul_right h hge
          have h3 : w * h = h * w := Nat.mul_comm w h
          omega
    constructor
    · simp only [roundDiv_mul_self hw nw, Nat.max_eq_left hnw]
      exact hnww
    · apply Nat.max_le.mpr
      refine ⟨roundDiv_le hw (Nat.mul_le_mul_left h hnww), hh⟩
  · rw [if_neg hb]
    have hb' : nh * w < nw * h := Nat.lt_of_not_le hb
    have hnhh : nh ≤ h := by
      rcases Nat.lt_or_ge nh h with hlt | hge
      · omega
      · exfalso
        rcases not_and_or.mp hex with hc | hc
        · have hnw' : nw < w := by omega
          have h1 : nw * h < w * h := (Nat.mul_lt_mul_right (by omega)).mpr hnw'
          have h2 : h * w ≤ nh * w := Nat.mul_le_mul_right w hge
          have h3 : w * h = h * w := Nat.mul_comm w h
          omega
        · omega
    constructor
    · apply Nat.max_le.mpr
      refine ⟨roundDiv_le hh (Nat.mul_le_mul_left w hnhh), hw⟩
    · simp only [roundDiv_mul_self hh nh, Nat.max_eq_left hnh]
      exact hnhh

/-- C6: the claim fails on the code — a 9×7 source under a 9×7 Cover
request does not come back as exactly 9×7.  The aspects tie, the else
branch computes `9.0 / (9.0 / 7.0)` in binary64 as 6.999999999999999,
the `as u32` cast truncates it to 6, and the crop clamps to a 9×6
output.  The spec's "center-crop to exactly W×H" is clearly the intent
(the branch even assigns the non-cropped axis its exact target); the
truncating cast of a doubly-rounded quotient is the slip. -/
theorem c6_resize_cover_truncation_bug :
    (ImageProcessor.resize_cover toyLib ⟨9, 7, fun _ _ => 0⟩ 9 7).width = 9 ∧
    (ImageProcessor.resize_cover toyLib ⟨9, 7, fun _ _ => 0⟩ 9 7).height = 6 ∧
    (6 : Nat) ≠ 7 :=
  ⟨by decide, by decide, by decide⟩

/-- C7: Contain mode never exceeds the target box on either axis, and
preserves the source aspect ratio within rounding — the cross products
`outWidth * sourceHeight` and `outHeight * sourceWidth` differ by at most
`sourceWidth + sourceHeight`, the slack a half-pixel rounding (plus the
clamp to 1) can introduce. -/
theorem c7_resize_contain_fits (L : ImageLib) (img : Img) (width height : Nat)
    (hw : 1 ≤ img.width) (hh : 1 ≤ img.height) (hW : 1 ≤ width) (hH : 1 ≤ height) :
    (ImageProcessor.resize_contain L img width height).width ≤ width ∧
    (ImageProcessor.resize_contain L img width height).height ≤ height ∧
    (ImageProcessor.resize_contain L img width height).width * img.height ≤
      (ImageProcessor.resize_contain L img width height).height * img.width
        + (img.width + img.height) ∧
    (ImageProcessor.resize_contain L img width height).height * img.width ≤
      (ImageProcessor.resize_contain L img width height).width * img.height
        + (img.width + img.height) := by
  have h1 := resizeDimensions_le (w := img.width) (h := img.height) hw hh hW hH
  have h2 := resizeDimensions_aspect (w := img.width) (h := img.height) hw hh hW hH
  have hrw : ImageProcessor.resize_contain L img width height
      = ⟨(resizeDimensions img.width img.height width height).1,
         (resizeDimensions img.width img.height width height).2,
         fun x y => L.sample img (resizeDimensions img.width img.height width height).1
           (resizeDimensions img.width img.height width height).2 x y⟩ := rfl
  rw [hrw]
  exact ⟨h1.1, h1.2, h2.1, h2.2⟩

/-- Witness for C7 at a 9×5 source and a 4×4 target (output is 4×2). -/
theorem c7_resize_contain_fits_witness :
    (ImageProcessor.resize_contain toyLib ⟨9, 5, fun _ _ => 0⟩ 4 4).width ≤ 4 ∧
    (ImageProcessor.resize_contain toyLib ⟨9, 5, fun _ _ => 0⟩ 4 4).height ≤ 4 ∧
    (ImageProcessor.resize_contain toyLib ⟨9, 5, fun _ _ => 0⟩ 4 4).width * 5 ≤
      (ImageProcessor.resize_contain toyLib ⟨9, 5, fun _ _ => 0⟩ 4 4).height * 9 + (9 + 5) ∧
    (ImageProcessor.resize_contain toyLib ⟨9, 5, fun _ _ => 0⟩ 4 4).height * 9 ≤
      (ImageProcessor.resize_contain toyLib ⟨9, 5, fun _ _ => 0⟩ 4 4).width * 5 + (9 + 5) :=
  c7_resize_contain_fits toyLib ⟨9, 5, fun _ _ => 0⟩ 4 4
    (by decide) (by decide) (by decide) (by decide)

/-- C10: ScaleDown never upscales — in the already-fits branch the image
is returned unchanged, and in the exceeds-target branch the aspect-fit
shrinks both axes to at most their source size. -/
theorem c10_resize_scale_down_no_upscale (L : ImageLib) (img : Img) (width height : Nat)
    (hw : 1 ≤ img.width) (hh : 1 ≤ img.height) (hW : 1 ≤ width) (hH : 1 ≤ height) :
    (ImageProcessor.resize_scale_down L img width height).width ≤ img.width ∧
    (ImageProcessor.resize_scale_down L img width height).height ≤ img.height := by
  unfold ImageProcessor.resize_scale_down
  by_cases hfit : img.width ≤ width ∧ img.height ≤ height
  · rw [if_pos hfit]
    exact ⟨Nat.le_refl _, Nat.le_refl _⟩
  · rw [if_neg hfit]
    have h1 := resizeDimensions_le_src (w := img.width) (h := img.height) hw hh hW hH hfit
    have hrw : imgResize L img width height
        = ⟨(resizeDimensions img.width img.height width height).1,
           (resizeDimensions img.width img.height width height).2,
           fun x y => L.sample img (resizeDimensions img.width img.height width height).1
             (resizeDimensions img.width img.height width height).2 x y⟩ := rfl
    rw [hrw]
    exact h1

/-- Witness for C10 at a 9×5 source that exceeds a 4×4 target. -/
theorem c10_resize_scale_down_no_upscale_witness :
    (ImageProcessor.resize_scale_down toyLib ⟨9, 5, fun _ _ => 0⟩ 4 4).width ≤ 9 ∧
    (ImageProcessor.resize_scale_down toyLib ⟨9, 5, fun _ _ => 0⟩ 4 4).height ≤ 5 :=
  c10_resize_scale_down_no_upscale toyLib ⟨9, 5, fun _ _ => 0⟩ 4 4
    (by decide) (by decide) (by decide) (by decide)

/-- C1 (amended): when the decoded source already fits inside the target
box, ScaleDown returns the JPEG re-encoding of the *unchanged decoded
image* — the pixel grid is untouched, but the bytes are the encoder's
output, not the input buffer; and when the source exceeds the box on
either axis, ScaleDown's output is exactly Contain's output. -/
theorem c1_scale_down_behavior (L : ImageLib) (image_data : Bytes) (width height : Nat)
    (img : Img) (hload : L.load_from_memory image_data = some img) :
    (img.width ≤ width ∧ img.height ≤ height →
      ImageProcessor.resize L image_data width height .ScaleDown =
        match L.write_jpeg img with
        | .error _ => .error (.ImageProcessingError "Failed to encode image")
        | .ok buffer => .ok (buffer, "image/jpeg")) ∧
    (¬(img.width ≤ width ∧ img.height ≤ height) →
      ImageProcessor.resize L image_data width height .ScaleDown =
        ImageProcessor.resize L image_data width height .Contain) := by
  constructor
  · intro hfit
    unfold ImageProcessor.resize
    rw [hload]
    simp only [ImageProcessor.resize_scale_down, if_pos hfit]
  · intro hex
    unfold ImageProcessor.resize
    rw [hload]
    simp only [ImageProcessor.resize_scale_down, ImageProcessor.resize_contain,
      if_neg hex]

/-- Witness for C1 (amended): a 1×1 source under a 100×100 ScaleDown
request comes back as the JPEG encoding of the unchanged image. -/
theorem c1_scale_down_behavior_witness :
    ImageProcessor.resize toyLib [137, 80, 1, 1] 100 100 .ScaleDown
      = .ok ([255, 216, 1, 1], "image/jpeg") := by
  have h := (c1_scale_down_behavior toyLib [137, 80, 1, 1] 100 100
    ⟨1, 1, fun _ _ => 0⟩ rfl).1 (by exact ⟨by decide, by decide⟩)
  exact h.trans rfl

/-- Counterexample to C1 as stated: the concrete codec instance decodes
the PNG-signature buffer `[137, 80, 1, 1]` to a 1×1 image, which fits a
100×100 ScaleDown box, yet the handler's output bytes are the JPEG
re-encoding `[255, 216, 1, 1]`, not the input buffer — the source always
re-encodes to JPEG, so the result is not byte-for-byte the input. -/
theorem c1_scale_down_counterexample :
    toyLib.load_from_memory [137, 80, 1, 1] = some ⟨1, 1, fun _ _ => 0⟩ ∧
    ImageProcessor.resize toyLib [137, 80, 1, 1] 100 100 .ScaleDown
      = .ok ([255, 216, 1, 1], "image/jpeg") ∧
    ([255, 216, 1, 1] : Bytes) ≠ [137, 80, 1, 1] := by
  exact ⟨rfl, rfl, by decide⟩

/-! ## Lemmas about the string splitting primitives -/

theorem splitAtFirst_append_cons {c : Char} :
    ∀ {a : Str} (b : Str), c ∉ a → splitAtFirst c (a ++ c :: b) = (a, some b) := by
  intro a
  induction a with
  | nil => intro b _; simp [splitAtFirst]
  | cons x xs ih =>
    intro b hmem
    have hx : ¬x = c := by
      intro h
      exact hmem (by simp [h])
    have hxs : c ∉ xs := fun h => hmem (List.mem_cons_of_mem x h)
    simp only [List.cons_append, splitAtFirst, if_neg hx, List.append_eq, ih b hxs]

theorem dropLeadingChar_of_not_head {c : Char} {l : Str}
    (h : isPreOf [c] l = false) : dropLeadingChar c l = l := by
  cases l with
  | nil => rfl
  | cons x xs =>
    have hx : ¬x = c := by
      intro hcx
      subst hcx
      simp [isPreOf] at h
    simp [dropLeadingChar, if_neg hx]

theorem isPreOf_append_self : ∀ (p b : Str), isPreOf p (p ++ b) = true := by
  intro p
  induction p with
  | nil => intro b; rfl
  | cons x xs ih => intro b; simp [isPreOf, ih b]

theorem isPreOf_append_of_le : ∀ (p a : Str) (b : Str), p.length ≤ a.length →
    isPreOf p (a ++ b) = isPreOf p a := by
  intro p
  induction p with
  | nil => intro a b _; rfl
  | cons x xs ih =>
    intro a b hlen
    cases a with
    | nil => simp at hlen
    | cons y ys =>
      simp only [List.cons_append, isPreOf, List.append_eq]
      rw [ih ys b (by simpa using hlen)]

theorem containsSeq_mid {pat : Str} (hne : pat ≠ []) :
    ∀ (a b : Str), containsSeq pat (a ++ (pat ++ b)) = true := by
  intro a
  induction a with
  | nil =>
    intro b
    rw [List.nil_append]
    cases hp : pat ++ b with
    | nil =>
      rcases List.append_eq_nil.mp hp with ⟨h1, _⟩
      exact absurd h1 hne
    | cons x xs =>
      rw [containsSeq]
      have h1 : isPreOf pat (x :: xs) = true := by
        rw [← hp]
        exact isPreOf_append_self pat b
      rw [h1, Bool.true_or]
  | cons y ys ih =>
    intro b
    simp only [List.cons_append, containsSeq, List.append_eq]
    rw [ih b, Bool.or_true]

theorem takeUntilChar_append_cons {c : Char} {a : Str} (b : Str) (h : c ∉ a) :
    takeUntilChar c (a ++ c :: b) = a := by
  unfold takeUntilChar
  rw [splitAtFirst_append_cons b h]

/-- A `hostSafeChar`-only string cannot contain `/`, `.`, or `:`. -/
theorem hostSafe_not_mem {bucket : Str} (hb : ∀ c ∈ bucket, hostSafeChar c = true)
    {d : Char} (hd : hostSafeChar d = false) : d ∉ bucket := by
  intro hmem
  rw [hb d hmem] at hd
  exact absurd hd (by decide)

theorem splitAtFirst_cons_ne {c x : Char} (h : ¬x = c) (xs : Str) :
    splitAtFirst c (x :: xs) = (x :: (splitAtFirst c xs).1, (splitAtFirst c xs).2) := by
  simp [splitAtFirst, if_neg h]

theorem splitAtFirst_append_left {c : Char} :
    ∀ {a : Str} (l : Str), c ∉ a →
      splitAtFirst c (a ++ l) = (a ++ (splitAtFirst c l).1, (splitAtFirst c l).2) := by
  intro a
  induction a with
  | nil => intro l _; simp
  | cons x xs ih =>
    intro l hmem
    have hx : ¬x = c := by
      intro h
      exact hmem (by simp [h])
    have hxs : c ∉ xs := fun h => hmem (List.mem_cons_of_mem x h)
    simp only [List.cons_append, splitAtFirst, if_neg hx, List.append_eq, ih l hxs]

theorem dropLeading_slash_cons {key : Str} (hk : isPreOf "/".data key = false) :
    dropLeadingChar '/' ('/' :: key) = key := by
  have h1 : dropLeadingChar '/' ('/' :: key) = dropLeadingChar '/' key := by
    simp [dropLeadingChar]
  rw [h1, dropLeadingChar_of_not_head hk]

theorem isPreOf_slash_false_of_hostSafe {bucket : Str} (hb0 : bucket ≠ [])
    (hb1 : ∀ c ∈ bucket, hostSafeChar c = true) (t : Str) :
    isPreOf "/".data (bucket ++ t) = false := by
  match bucket, hb0 with
  | b0 :: bs, _ =>
    have h := hb1 b0 (by simp)
    have hne : ¬('/' = b0) := by
      intro hh
      rw [← hh] at h
      exact absurd h (by decide)
    show (decide ('/' = b0) && isPreOf [] (bs ++ t)) = false
    rw [decide_eq_false hne, Bool.false_and]

/-- A safe bucket followed by a dot cannot make the host start with
`s3.`: the bucket is nonempty, dot-free, and not literally `s3`. -/
theorem not_isPreOf_s3dot {bucket : Str} (hb0 : bucket ≠ [])
    (hb1 : ∀ c ∈ bucket, hostSafeChar c = true) (hb2 : bucket ≠ "s3".data)
    (t : Str) : isPreOf "s3.".data (bucket ++ '.' :: t) = false := by
  match bucket, hb0 with
  | [b0], _ =>
    show (decide ('s' = b0) && (decide ('3' = '.') && isPreOf ['.'] t)) = false
    simp
  | [b0, b1], _ =>
    by_cases hs : b0 = 's' ∧ b1 = '3'
    · exact absurd (by rw [hs.1, hs.2]) hb2
    · show (decide ('s' = b0) && (decide ('3' = b1) && (decide ('.' = '.')
        && isPreOf ([] : Str) t))) = false
      rcases not_and_or.mp hs with h | h
      · have hd : decide ('s' = b0) = false := decide_eq_false (fun hh => h hh.symm)
        rw [hd]
        simp
      · have hd : decide ('3' = b1) = false := decide_eq_false (fun hh => h hh.symm)
        rw [hd]
        simp
  | b0 :: b1 :: b2 :: bs, _ =>
    have hsafe : hostSafeChar b2 = true := hb1 b2 (by simp)
    have hne : ¬('.' = b2) := by
      intro h
      rw [← h] at hsafe
      exact absurd hsafe (by decide)
    show (decide ('s' = b0) && (decide ('3' = b1) && (decide ('.' = b2)
      && isPreOf [] (bs ++ '.' :: t)))) = false
    rw [decide_eq_false hne, Bool.false_and, Bool.and_false, Bool.and_false]

/-- A bucket that does not itself start with `s3-` cannot make the host
start with `s3-` once a dot is appended. -/
theorem not_isPreOf_s3dash {bucket : Str} (hb0 : bucket ≠ [])
    (hb3 : isPreOf "s3-".data bucket = false) (t : Str) :
    isPreOf "s3-".data (bucket ++ '.' :: t) = false := by
  match bucket, hb0 with
  | [b0], _ =>
    show (decide ('s' = b0) && (decide ('3' = '.') && isPreOf ['-'] t)) = false
    rw [show decide ('3' = '.') = false from rfl, Bool.false_and, Bool.and_false]
  | [b0, b1], _ =>
    show (decide ('s' = b0) && (decide ('3' = b1) && (decide ('-' = '.')
      && isPreOf ([] : Str) t))) = false
    rw [show decide ('-' = '.') = false from rfl, Bool.false_and, Bool.and_false,
      Bool.and_false]
  | b0 :: b1 :: b2 :: bs, _ =>
    rw [show (b0 :: b1 :: b2 :: bs) ++ '.' :: t = (b0 :: b1 :: b2 :: bs) ++ '.' :: t from rfl,
      isPreOf_append_of_le "s3-".data (b0 :: b1 :: b2 :: bs) ('.' :: t) (by simp)]
    exact hb3

theorem parse_native_shape {bucket key : Str} (_hb0 : bucket ≠ [])
    (hb1 : ∀ c ∈ bucket, hostSafeChar c = true)
    (hk0 : key ≠ []) (hk2 : isPreOf "/".data key = false) :
    parse_s3_url ("s3://".data ++ bucket ++ '/' :: key) = .ok (bucket, key) := by
  have hslash : '/' ∉ bucket := hostSafe_not_mem hb1 (by decide)
  have heq : "s3://".data ++ bucket ++ '/' :: key
      = "s3".data ++ ':' :: ('/' :: '/' :: (bucket ++ '/' :: key)) := rfl
  rw [heq]
  unfold parse_s3_url urlParse
  rw [splitAtFirst_append_cons _ (by decide : ':' ∉ "s3".data)]
  try dsimp only
  rw [if_pos (by decide : validScheme "s3".data = true)]
  try dsimp only
  rw [if_pos (⟨rfl, rfl⟩ : ('/' : Char) = '/' ∧ ('/' : Char) = '/')]
  try dsimp only
  rw [splitAtFirst_append_cons key hslash]
  try dsimp only
  rw [if_pos rfl]
  try dsimp only
  rw [dropLeading_slash_cons hk2]
  try dsimp only
  rw [if_neg hk0]

theorem parse_virtual_shape {bucket domain key : Str} (hb0 : bucket ≠ [])
    (hb1 : ∀ c ∈ bucket, hostSafeChar c = true)
    (hb2 : bucket ≠ "s3".data) (hb3 : isPreOf "s3-".data bucket = false)
    (hd1 : ∀ c ∈ domain, hostSafeChar c = true ∨ c = '.')
    (hk0 : key ≠ []) (hk2 : isPreOf "/".data key = false) :
    parse_s3_url ("https://".data ++ bucket ++ ".s3.".data ++ domain ++ '/' :: key)
      = .ok (bucket, key) := by
  have hslashb : '/' ∉ bucket := hostSafe_not_mem hb1 (by decide)
  have hdotb : '.' ∉ bucket := hostSafe_not_mem hb1 (by decide)
  have hslashd : '/' ∉ domain := by
    intro hm
    rcases hd1 '/' hm with h | h
    · exact absurd h (by decide)
    · exact absurd h (by decide)
  have hpre1 : isPreOf "s3.".data (bucket ++ (".s3.".data ++ domain)) = false :=
    not_isPreOf_s3dot hb0 hb1 hb2 ('s' :: '3' :: '.' :: domain)
  have hpre2 : isPreOf "s3-".data (bucket ++ (".s3.".data ++ domain)) = false :=
    not_isPreOf_s3dash hb0 hb3 ('s' :: '3' :: '.' :: domain)
  have hcont : containsSeq ".s3.".data (bucket ++ (".s3.".data ++ domain)) = true :=
    containsSeq_mid (by decide) bucket domain
  have htake : takeUntilChar '.' (bucket ++ (".s3.".data ++ domain)) = bucket :=
    takeUntilChar_append_cons ('s' :: '3' :: '.' :: domain) hdotb
  have heq : "https://".data ++ bucket ++ ".s3.".data ++ domain ++ '/' :: key
      = "https".data ++ ':' :: ('/' :: '/' ::
          (bucket ++ (".s3.".data ++ (domain ++ '/' :: key)))) := by
    simp only [List.append_assoc]
    rfl
  rw [heq]
  unfold parse_s3_url urlParse
  rw [splitAtFirst_append_cons _ (by decide : ':' ∉ "https".data)]
  try dsimp only
  rw [if_pos (by decide : validScheme "https".data = true)]
  try dsimp only
  rw [if_pos (⟨rfl, rfl⟩ : ('/' : Char) = '/' ∧ ('/' : Char) = '/')]
  try dsimp only
  rw [splitAtFirst_append_left _ hslashb]
  rw [splitAtFirst_append_left _ (by decide : '/' ∉ ".s3.".data)]
  rw [splitAtFirst_append_cons key hslashd]
  try dsimp only
  rw [if_neg (by decide : ¬("https".data = "s3".data))]
  try dsimp only
  rw [if_pos (Or.inl rfl : "https".data = "https".data ∨ "https".data = "http".data)]
  try dsimp only
  rw [hpre1, hpre2]
  try dsimp only
  rw [if_neg (by decide : ¬((false || false) = true))]
  try dsimp only
  rw [hcont, Bool.true_or]
  rw [if_pos rfl]
  try dsimp only
  rw [htake, dropLeading_slash_cons hk2]
  try dsimp only
  rw [if_neg hk0]

theorem parse_path_shape {bucket domain key : Str} (hb0 : bucket ≠ [])
    (hb1 : ∀ c ∈ bucket, hostSafeChar c = true)
    (hd1 : ∀ c ∈ domain, hostSafeChar c = true ∨ c = '.')
    (hk0 : key ≠ []) :
    parse_s3_url ("https://s3.".data ++ domain ++ '/' :: bucket ++ '/' :: key)
      = .ok (bucket, key) := by
  have hslashb : '/' ∉ bucket := hostSafe_not_mem hb1 (by decide)
  have hslashd : '/' ∉ domain := by
    intro hm
    rcases hd1 '/' hm with h | h
    · exact absurd h (by decide)
    · exact absurd h (by decide)
  have heq : "https://s3.".data ++ domain ++ '/' :: bucket ++ '/' :: key
      = "https".data ++ ':' :: ('/' :: '/' ::
          ("s3.".data ++ (domain ++ '/' :: (bucket ++ '/' :: key)))) := by
    simp only [List.append_assoc, List.cons_append]
    rfl
  rw [heq]
  unfold parse_s3_url urlParse
  rw [splitAtFirst_append_cons _ (by decide : ':' ∉ "https".data)]
  try dsimp only
  rw [if_pos (by decide : validScheme "https".data = true)]
  try dsimp only
  rw [if_pos (⟨rfl, rfl⟩ : ('/' : Char) = '/' ∧ ('/' : Char) = '/')]
  try dsimp only
  rw [splitAtFirst_append_left _ (by decide : '/' ∉ "s3.".data)]
  rw [splitAtFirst_append_cons _ hslashd]
  try dsimp only
  rw [if_neg (by decide : ¬("https".data = "s3".data))]
  try dsimp only
  rw [if_pos (Or.inl rfl : "https".data = "https".data ∨ "https".data = "http".data)]
  try dsimp only
  rw [isPreOf_append_self "s3.".data domain, Bool.true_or]
  rw [if_pos rfl]
  try dsimp only
  rw [dropLeading_slash_cons (isPreOf_slash_false_of_hostSafe hb0 hb1 ('/' :: key))]
  rw [splitAtFirst_append_cons key hslashb]
  try dsimp only
  rw [if_neg hk0]

/-- C3 (amended): for buckets over the lowercase letter/digit/hyphen
alphabet that are not `s3` and do not start with `s3-`, domains over the
host alphabet plus dots, and non-empty keys over the path-safe alphabet
with no leading slash and no `.`/`..` segments, all three accepted
locator shapes parse back to exactly the (bucket, key) pair they were
rendered from.  The alphabet restrictions keep the url-crate model exact
(no percent-encoding, lowercasing, or dot-segment normalization); the
bucket restrictions are forced by the counterexample: a dotted bucket in
the virtual-hosted shape is truncated at its first dot. -/
theorem c3_parse_s3_url_roundtrip (bucket domain key : Str)
    (hb0 : bucket ≠ []) (hb1 : ∀ c ∈ bucket, hostSafeChar c = true)
    (hb2 : bucket ≠ "s3".data) (hb3 : isPreOf "s3-".data bucket = false)
    (hd1 : ∀ c ∈ domain, hostSafeChar c = true ∨ c = '.')
    (hk0 : key ≠ []) (_hk1 : ∀ c ∈ key, keySafeChar c = true)
    (hk2 : isPreOf "/".data key = false) (_hk3 : noDotSegs key = true) :
    parse_s3_url ("s3://".data ++ bucket ++ '/' :: key) = .ok (bucket, key) ∧
    parse_s3_url ("https://".data ++ bucket ++ ".s3.".data ++ domain ++ '/' :: key)
      = .ok (bucket, key) ∧
    parse_s3_url ("https://s3.".data ++ domain ++ '/' :: bucket ++ '/' :: key)
      = .ok (bucket, key) :=
  ⟨parse_native_shape hb0 hb1 hk0 hk2,
   parse_virtual_shape hb0 hb1 hb2 hb3 hd1 hk0 hk2,
   parse_path_shape hb0 hb1 hd1 hk0⟩

/-- Witness for C3 at bucket `my-bucket`, domain `amazonaws.com`, key
`photos/cat.png`. -/
theorem c3_parse_s3_url_roundtrip_witness :
    parse_s3_url "s3://my-bucket/photos/cat.png".data
      = .ok ("my-bucket".data, "photos/cat.png".data) ∧
    parse_s3_url "https://my-bucket.s3.amazonaws.com/photos/cat.png".data
      = .ok ("my-bucket".data, "photos/cat.png".data) ∧
    parse_s3_url "https://s3.amazonaws.com/my-bucket/photos/cat.png".data
      = .ok ("my-bucket".data, "photos/cat.png".data) :=
  c3_parse_s3_url_roundtrip "my-bucket".data "amazonaws.com".data "photos/cat.png".data
    (by decide) (by decide) (by decide) (by decide) (by decide) (by decide) (by decide)
    (by decide) (by decide)

/-- Counterexample to C3 as stated: the bucket `a.b` and key `k` are both
non-empty, yet the virtual-hosted rendering parses back to bucket `a` —
`parse_s3_url` truncates the bucket at its first dot. -/
theorem c3_parse_s3_url_counterexample :
    parse_s3_url "https://a.b.s3.amazonaws.com/k".data = .ok ("a".data, "k".data) ∧
    ("a".data : Str) ≠ "a.b".data :=
  ⟨by decide, by decide⟩

/-- C2: a request with width 0 or height 0 fails immediately with the
dimension-validation error (the `InvalidS3Url` constructor, which is the
variant the code uses for the spec's `InvalidRequest` category — `error.rs`
is outside the reviewed sources), and the empty trace shows that no
storage-collaborator operation (exists, fetch or store) was issued. -/
theorem c2_zero_dimension_fails_before_storage (L : ImageLib) (be : Backend)
    (payload : ResizeRequest) (h : payload.width = 0 ∨ payload.height = 0) :
    resize_image L be payload
      = (.error (.InvalidS3Url "Width and height must be greater than 0"), []) := by
  unfold resize_image
  rw [if_pos h]

/-- Witness for C2 at the pairs (0,0), (0,100) and (100,0). -/
theorem c2_zero_dimension_fails_before_storage_witness :
    resize_image toyLib freshBackend ⟨"s3://b/k.png".data, 0, 0, .Cover⟩
      = (.error (.InvalidS3Url "Width and height must be greater than 0"), []) ∧
    resize_image toyLib freshBackend ⟨"s3://b/k.png".data, 0, 100, .Cover⟩
      = (.error (.InvalidS3Url "Width and height must be greater than 0"), []) ∧
    resize_image toyLib freshBackend ⟨"s3://b/k.png".data, 100, 0, .Cover⟩
      = (.error (.InvalidS3Url "Width and height must be greater than 0"), []) :=
  ⟨c2_zero_dimension_fails_before_storage toyLib freshBackend _ (Or.inl rfl),
   c2_zero_dimension_fails_before_storage toyLib freshBackend _ (Or.inl rfl),
   c2_zero_dimension_fails_before_storage toyLib freshBackend _ (Or.inr rfl)⟩

/-- C8: the existence check never propagates an error — any `head_object`
failure is reported as `false` ("the variant does not exist") — while the
other two storage operations propagate their failures as `S3Error`s, so
the existence check is the only place a storage error is swallowed. -/
theorem c8_exists_check_swallows_errors (be : Backend) :
    (∀ bucket key e, be.headObject bucket key = .error e →
      check_object_exists be bucket key = false) ∧
    (∀ s3_url bucket key e, parse_s3_url s3_url = .ok (bucket, key) →
      be.getObject bucket key = .error e →
      download_image be s3_url
        = .error (.S3Error ("Failed to download from S3: " ++ e))) ∧
    (∀ bucket key d ct e, be.putObject bucket key d ct = .error e →
      upload_image be bucket key d ct
        = .error (.S3Error ("Failed to upload to S3: " ++ e))) := by
  refine ⟨?_, ?_, ?_⟩
  · intro bucket key e he
    unfold check_object_exists
    rw [he]
  · intro s3_url bucket key e hp hg
    unfold download_image
    rw [hp]
    try dsimp only
    rw [hg]
  · intro bucket key d ct e hp
    unfold upload_image
    rw [hp]

/-- Witness for C8 at the all-failing backend. -/
theorem c8_exists_check_swallows_errors_witness :
    check_object_exists freshBackend "b".data "k".data = false ∧
    upload_image cachedBackend "b".data "k".data [0] "image/jpeg"
      = .error (.S3Error ("Failed to upload to S3: " ++ "unused")) :=
  ⟨(c8_exists_check_swallows_errors freshBackend).1 "b".data "k".data "NotFound" rfl,
   (c8_exists_check_swallows_errors cachedBackend).2.2 "b".data "k".data [0] "image/jpeg"
     "unused" rfl⟩

/-- C5: a second identical request issued once the variant key exists in
storage is answered from the existence check alone — the trace contains
only the `headObject` call, no fetch, resize or store — and its resized
locator equals the one returned by the first successful call. -/
theorem c5_idempotent_cache_hit (L : ImageLib) (be1 be2 : Backend)
    (payload : ResizeRequest) (resp1 : ResizeResponse) (tr1 : List TraceEv)
    (bucket okey : Str)
    (hparse : parse_s3_url payload.s3_url = .ok (bucket, okey))
    (h1 : resize_image L be1 payload = (.ok resp1, tr1))
    (h2 : be2.headObject bucket (generate_resized_key okey payload.width payload.height)
      = .ok ()) :
    resize_image L be2 payload
      = (.ok { original_url := payload.s3_url,
               resized_url := s3UrlOf bucket
                 (generate_resized_key okey payload.width payload.height),
               width := payload.width,
               height := payload.height,
               object_mode := payload.object_mode },
         [.headObject bucket (generate_resized_key okey payload.width payload.height)]) ∧
    resp1.resized_url
      = s3UrlOf bucket (generate_resized_key okey payload.width payload.height) := by
  have hdim : ¬(payload.width = 0 ∨ payload.height = 0) := by
    intro hd
    unfold resize_image at h1
    rw [if_pos hd] at h1
    have hfst := congrArg Prod.fst h1
    simp at hfst
  constructor
  · unfold resize_image
    rw [if_neg hdim, hparse]
    try dsimp only
    have hchk : check_object_exists be2 bucket
        (generate_resized_key okey payload.width payload.height) = true := by
      unfold check_object_exists
      rw [h2]
    rw [hchk]
    rw [if_pos rfl]
  · unfold resize_image at h1
    rw [if_neg hdim, hparse] at h1
    try dsimp only at h1
    by_cases hc : check_object_exists be1 bucket
        (generate_resized_key okey payload.width payload.height) = true
    · rw [hc, if_pos rfl] at h1
      have hfst := congrArg Prod.fst h1
      have hr := Except.ok.inj hfst
      rw [← hr]
    · rw [if_neg hc] at h1
      rcases hdl : download_image be1 payload.s3_url with e | image_data
      · rw [hdl] at h1
        have hfst := congrArg Prod.fst h1
        simp at hfst
      · rw [hdl] at h1
        try dsimp only at h1
        rcases hproc : ImageProcessor.resize L image_data payload.width payload.height
            payload.object_mode with e | pr
        · rw [hproc] at h1
          have hfst := congrArg Prod.fst h1
          simp at hfst
        · obtain ⟨resized_data, content_type⟩ := pr
          rw [hproc] at h1
          try dsimp only at h1
          rcases hup : upload_image be1 bucket
              (generate_resized_key okey payload.width payload.height)
              resized_data content_type with e | u
          · rw [hup] at h1
            have hfst := congrArg Prod.fst h1
            simp at hfst
          · rw [hup] at h1
            try dsimp only at h1
            have hu : u = s3UrlOf bucket
                (generate_resized_key okey payload.width payload.height) := by
              unfold upload_image at hup
              rcases hputr : be1.putObject bucket
                  (generate_resized_key okey payload.width payload.height)
                  resized_data content_type with e2 | u2
              · rw [hputr] at hup
                exact absurd hup (by simp)
              · rw [hputr] at hup
                exact (Except.ok.inj hup).symm
            have hfst := congrArg Prod.fst h1
            have hr := Except.ok.inj hfst
            rw [← hr, ← hu]

/-- Witness for C5: a first call against empty storage stores
`k_2x3.png`; the second call against storage where the variant exists
answers from the existence check alone with the same locator. -/
theorem c5_idempotent_cache_hit_witness :
    resize_image toyLib cachedBackend ⟨"s3://b/k.png".data, 2, 3, .Cover⟩
      = (.ok { original_url := "s3://b/k.png".data,
               resized_url := s3UrlOf "b".data (generate_resized_key "k.png".data 2 3),
               width := 2,
               height := 3,
               object_mode := .Cover },
         [.headObject "b".data (generate_resized_key "k.png".data 2 3)]) ∧
    ({ original_url := "s3://b/k.png".data,
       resized_url := "s3://b/k_2x3.png".data,
       width := 2, height := 3, object_mode := .Cover } : ResizeResponse).resized_url
      = s3UrlOf "b".data (generate_resized_key "k.png".data 2 3) :=
  c5_idempotent_cache_hit toyLib freshBackend cachedBackend
    ⟨"s3://b/k.png".data, 2, 3, .Cover⟩
    { original_url := "s3://b/k.png".data,
      resized_url := "s3://b/k_2x3.png".data,
      width := 2, height := 3, object_mode := .Cover }
    [.headObject "b".data "k_2x3.png".data, .getObject "b".data "k.png".data,
     .processImage, .putObject "b".data "k_2x3.png".data]
    "b".data "k.png".data (by decide) (by decide) rfl
